import Mathlib

/-!
Formal model of the codesafe real-time collaboration server.

The definitions below are a shallow embedding of the backend source
(`backend/src` server file and `backend/src/persistence.ts`):

* JavaScript `Map<string, _>` objects are modelled as association lists
  over `String` keys.
* Dynamically typed JSON / Yjs values that the code inspects with
  `typeof` checks are modelled by the small universe `JVal`.
* Thrown exceptions are modelled with `Except String`; a function that
  cannot throw is total.
* WebSocket side effects (socket.send, broadcast) are modelled as lists
  of `OutEvent` values returned by the handler functions.
* The asynchronous persist scheduler is modelled by explicit state
  passing over the scheduler fields of `Room`, with the outcome of the
  awaited `persistProjectState` call and any concurrent
  `scheduleProjectPersist` during the await supplied as parameters.
-/

namespace Codesafe

/-- A dynamically typed JSON / Yjs attribute value, as far as the server
code discriminates them with `typeof` checks. -/
inductive JVal where
  | str (s : String)
  | num (n : Int)
  | boolv (b : Bool)
  | nullv
  | undef
  | objv
deriving DecidableEq

/-- Roles, `type Role = 'viewer' | 'editor' | 'admin'` from `models.ts`. -/
inductive Role where
  | viewer
  | editor
  | admin
deriving DecidableEq

/-- `getRoleRank` from the server file. -/
def getRoleRank : Role → Nat
  | .viewer => 0
  | .editor => 1
  | .admin => 2

/-- `AuthTokenPayload` from the server file. -/
structure AuthTokenPayload where
  userId : String
  username : String
  role : Role
deriving DecidableEq

/-- Association-list lookup, modelling `Map.prototype.get`. -/
def assocLookup {α : Type} (l : List (String × α)) (k : String) : Option α :=
  (l.find? (fun e => e.fst == k)).map Prod.snd

/-- Association-list update, modelling `Map.prototype.set`. -/
def assocSet {α : Type} (l : List (String × α)) (k : String) (v : α) : List (String × α) :=
  if l.any (fun e => e.fst == k) then
    l.map (fun e => if e.fst == k then (k, v) else e)
  else
    l ++ [(k, v)]

/-- Association-list removal, modelling `Map.prototype.delete`. -/
def assocErase {α : Type} (l : List (String × α)) (k : String) : List (String × α) :=
  l.filter (fun e => !(e.fst == k))

theorem assocLookup_assocSet_self {α : Type} (l : List (String × α)) (k : String) (v : α) :
    assocLookup (assocSet l k v) k = some v := by
  unfold assocLookup assocSet
  split
  · rename_i hany
    induction l with
    | nil => simp at hany
    | cons e rest ih =>
      by_cases he : e.fst == k
      · simp [List.find?, he]
      · simp only [List.any_cons] at hany
        rcases Bool.or_eq_true_iff.mp hany with h | h
        · exact absurd h (by simpa using he)
        · simpa [List.find?, he] using ih h
  · rename_i hany
    have hnone : List.find? (fun e => e.fst == k) l = none := by
      rw [List.find?_eq_none]
      intro x hx
      simp only [List.any_eq_true, not_exists, not_and] at hany
      exact fun hpx => hany x hx hpx
    simp [List.find?_append, hnone, List.find?]

theorem assocLookup_assocErase_self {α : Type} (l : List (String × α)) (k : String) :
    assocLookup (assocErase l k) k = none := by
  induction l with
  | nil => rfl
  | cons e rest ih =>
    simp only [assocLookup, assocErase, List.filter_cons] at ih ⊢
    by_cases he : e.fst == k
    · simp only [he, Bool.not_true]
      simp only [if_neg (by simp : ¬(false = true))]
      exact ih
    · simp only [he, Bool.not_false, if_pos]
      rw [List.find?_cons_of_neg _ (by simp [he])]
      exact ih

/-- Permission map of a room, `Map<string, Role>` in the source. -/
abbrev PermMap := List (String × Role)

/-- One attached WebSocket: an identity plus its `readyState === OPEN` flag. -/
structure Socket where
  sid : Nat
  readyStateOpen : Bool
deriving DecidableEq

/-- The CRDT document, abstracted as the list of update payloads applied to it.
The server treats SYNC payloads as opaque bytes (spec section 4.6). -/
structure DocState where
  updates : List (List Nat)
deriving DecidableEq

/-- `Room` from the server file. `awareness` abstracts the y-protocols
presence registry as the list of applied awareness payloads. -/
structure Room where
  doc : DocState
  awareness : List (List Nat)
  sockets : List Socket
  persistTimer : Bool
  persistInFlight : Bool
  persistRequested : Bool
  permissions : PermMap
deriving DecidableEq

/-- `SocketContext` from the server file. -/
structure SocketContext where
  roomId : String
  awarenessClientIds : List Nat
  user : AuthTokenPayload
deriving DecidableEq

/-- `getEffectiveRole` from the server file:
`room.permissions.get(user.userId) ?? user.role`. -/
def getEffectiveRole (room : Room) (user : AuthTokenPayload) : Role :=
  (assocLookup room.permissions user.userId).getD user.role

/-- JSON text frames sent by the server, with JSON serialization abstracted
into a tagged value. -/
inductive TextFrame where
  | welcome (roomId : String) (user : AuthTokenPayload)
  | errorFrame (message : String)
  | chat (id : String) (userId : String) (username : String) (text : String) (sentAt : String)
  | pong
deriving DecidableEq

/-- An observable socket send performed by a handler. -/
inductive OutEvent where
  | sendText (target : Nat) (frame : TextFrame)
  | sendBinary (target : Nat) (mtype : Nat) (payload : List Nat)
deriving DecidableEq

def MESSAGE_TYPE_SYNC : Nat := 0
def MESSAGE_TYPE_AWARENESS : Nat := 1

/-- `broadcast` from the server file: send a binary frame to every open
socket of the room except the excluded origin socket. -/
def broadcast (room : Room) (mtype : Nat) (payload : List Nat) (exclude : Option Nat) :
    List OutEvent :=
  room.sockets.filterMap (fun client =>
    if exclude ≠ some client.sid ∧ client.readyStateOpen = true then
      some (.sendBinary client.sid mtype payload)
    else
      none)

/-- `broadcastText` from the server file: send a text frame to every open
socket of the room except the excluded socket. -/
def broadcastText (room : Room) (frame : TextFrame) (exclude : Option Nat) :
    List OutEvent :=
  room.sockets.filterMap (fun client =>
    if exclude ≠ some client.sid ∧ client.readyStateOpen = true then
      some (.sendText client.sid frame)
    else
      none)

/-- `scheduleProjectPersist` from the server file: set the requested flag
and arm the 1200 ms timer when none is armed. -/
def scheduleProjectPersist (room : Room) : Room :=
  if room.persistTimer then
    { room with persistRequested := true }
  else
    { room with persistRequested := true, persistTimer := true }

/-- The effect of `Y.applyUpdate(room.doc, payload, socket)`: the update is
appended to the doc, and the doc update observer installed in `createRoom`
broadcasts it to every other socket and schedules a persist. -/
def applyUpdateWithOrigin (room : Room) (update : List Nat) (origin : Option Nat) :
    Room × List OutEvent :=
  let withDoc : Room := { room with doc := { updates := room.doc.updates ++ [update] } }
  let events := broadcast withDoc MESSAGE_TYPE_SYNC update origin
  (scheduleProjectPersist withDoc, events)

/-- Primitive scheduler actions of one `flushProjectPersist` run, in
program order. -/
inductive FlushEvent where
  | setRequested (b : Bool)
  | setInFlight (b : Bool)
  | callPersist
  | armTimer (delayMs : Nat)
deriving DecidableEq

/-- `flushProjectPersist` from the server file, as a state transformer
returning the trace of scheduler actions. `failed` is the outcome of the
awaited `persistProjectState` call; `schedDuring` records whether some
`scheduleProjectPersist` ran during that await. -/
def flushProjectPersist (room : Room) (failed : Bool) (schedDuring : Bool) :
    Room × List FlushEvent :=
  if room.persistInFlight then
    ({ room with persistRequested := true }, [.setRequested true])
  else if room.persistRequested = false then
    (room, [])
  else
    let timerDuring := room.persistTimer || schedDuring
    let requestedAfterCall := schedDuring || failed
    let callEvents : List FlushEvent :=
      [.setInFlight true, .setRequested false, .callPersist] ++
        (if failed then [FlushEvent.setRequested true] else []) ++
        [.setInFlight false]
    let roomAfter : Room :=
      { room with
          persistInFlight := false
          persistRequested := requestedAfterCall
          persistTimer := timerDuring }
    if requestedAfterCall && !timerDuring then
      ({ roomAfter with persistTimer := true }, callEvents ++ [.armTimer 600])
    else
      (roomAfter, callEvents)

/-- An incoming text frame, after the JSON.parse step is abstracted:
`pingText` is the literal string `ping` (which is not valid JSON),
`jsonObj` is a successfully parsed object carrying the values found at
keys `type` and `text` (absent keys give `JVal.undef`), and `unparsable`
is any other string that JSON.parse rejects. -/
inductive IncomingText where
  | pingText
  | jsonObj (typeField : JVal) (textField : JVal)
  | unparsable
deriving DecidableEq

/-- Whitespace recognized by the model of `String.prototype.trim`. -/
def isJsWhitespace (c : Char) : Bool :=
  c = ' ' || c = '\t' || c = '\n' || c = '\r' || c = '\x0b' || c = '\x0c'

/-- Model of `String.prototype.trim`: drop leading and trailing
whitespace. -/
def jsTrim (s : String) : String :=
  String.mk (((s.data.dropWhile isJsWhitespace).reverse.dropWhile isJsWhitespace).reverse)

/-- `parseIncomingChatMessage` from the server file, returning the trimmed
chat text on success. -/
def parseIncomingChatMessage : IncomingText → Option String
  | .pingText => none
  | .unparsable => none
  | .jsonObj typeField textField =>
    if typeField ≠ JVal.str "chat" then none
    else
      match textField with
      | .str s =>
        let text := jsTrim s
        if text.length = 0 then none else some text
      | _ => none

/-- The non-binary branch of the socket message handler: the `ping`
reply, the context lookup, and the chat broadcast. `uuid` and `now` are
the values produced by `randomUUID()` and `new Date().toISOString()`. -/
def handleTextFrame (room : Room) (ctx : Option SocketContext) (socket : Socket)
    (data : IncomingText) (uuid : String) (now : String) : List OutEvent :=
  if data = IncomingText.pingText then
    [.sendText socket.sid .pong]
  else
    match ctx with
    | none => []
    | some c =>
      match parseIncomingChatMessage data with
      | some text =>
        broadcastText room
          (.chat uuid c.user.userId c.user.username text now) none
      | none => []

/-- `isValidRoomId` from the server file, the regex
`[A-Za-z0-9_-]` with length 1 to 64. -/
def isValidRoomId (roomId : String) : Bool :=
  decide (1 ≤ roomId.length) && decide (roomId.length ≤ 64) &&
    roomId.toList.all (fun c => c.isAlphanum || c = '_' || c = '-')

/-- Result of the WebSocket accept sequence. -/
inductive AcceptResult where
  | close (code : Nat) (reason : String)
  | proceed (roomId : String) (user : AuthTokenPayload)
deriving DecidableEq

/-- The accept sequence of `wss.on` connection from the server file:
shutdown check, origin check, token extraction and verification, room id
defaulting and validation. `verify` abstracts `verifyToken` over the jwt
library. -/
def acceptConnection (shuttingDown : Bool) (originAllowed : Bool)
    (token : Option String) (roomParam : Option String)
    (verify : String → Option AuthTokenPayload) : AcceptResult :=
  if shuttingDown then .close 1012 "server shutting down"
  else if originAllowed = false then .close 1008 "origin not allowed"
  else
    match token with
    | none => .close 1008 "missing token"
    | some t =>
      match verify t with
      | none => .close 1008 "invalid token"
      | some user =>
        let roomId := roomParam.getD "default"
        if isValidRoomId roomId = false then .close 1008 "invalid room id"
        else .proceed roomId user

/-- lib0 `decoding.readVarUint` over a byte list: 7-bit groups, low bits
first, continuation bit 128; reading past the end of the array throws. -/
def readVarUintFrom : List Nat → Nat → Nat → Except String (Nat × List Nat)
  | [], _, _ => .error "unexpected end of array"
  | b :: rest, acc, shift =>
    let acc2 := acc + b % 128 * 2 ^ shift
    if b < 128 then .ok (acc2, rest)
    else readVarUintFrom rest acc2 (shift + 7)

def readVarUint (bytes : List Nat) : Except String (Nat × List Nat) :=
  readVarUintFrom bytes 0 0

/-- lib0 `decoding.readVarString`: a varuint byte length followed by that
many bytes; a short buffer throws. -/
def readVarString (bytes : List Nat) : Except String (List Nat × List Nat) := do
  let (len, rest) ← readVarUint bytes
  if rest.length < len then .error "unexpected end of array"
  else .ok (rest.take len, rest.drop len)

def readAwarenessClientIdsLoop : Nat → List Nat → List Nat →
    Except String (List Nat)
  | 0, _, acc => .ok acc.reverse
  | n + 1, bytes, acc => do
    let (clientId, r1) ← readVarUint bytes
    let (_clock, r2) ← readVarUint r1
    let (_state, r3) ← readVarString r2
    readAwarenessClientIdsLoop n r3 (clientId :: acc)

/-- `readAwarenessClientIds` from the server file: read the varuint client
count, then per client a varuint id, a varuint clock and a varstring
state. Decoder exceptions propagate; the caller installs no handler. -/
def readAwarenessClientIds (update : List Nat) : Except String (List Nat) := do
  let (clientCount, rest) ← readVarUint update
  readAwarenessClientIdsLoop clientCount rest []

/-- `parseMessage` from the server file: first byte is the frame type,
the remainder is the payload; an empty frame does not parse. -/
def parseMessage (data : List Nat) : Option (Nat × List Nat) :=
  match data with
  | [] => none
  | b :: rest => some (b, rest)

/-- The binary branch of the socket message handler, from the server
file: header parse, the SYNC role gate and doc apply, and the AWARENESS
client-id bookkeeping and presence apply. A `.error` result models an
exception escaping the handler (the source installs no try/catch around
this code). -/
def handleBinaryFrame (room : Room) (ctx : Option SocketContext) (socket : Socket)
    (data : List Nat) : Except String (Room × Option SocketContext × List OutEvent) :=
  match parseMessage data with
  | none => .ok (room, ctx, [])
  | some (mtype, payload) =>
    if mtype = MESSAGE_TYPE_SYNC then
      match ctx with
      | none => .ok (room, ctx, [])
      | some c =>
        if getRoleRank (getEffectiveRole room c.user) < getRoleRank .editor then
          .ok (room, some c,
            [.sendText socket.sid (.errorFrame "insufficient permissions for editing")])
        else
          let applied := applyUpdateWithOrigin room payload (some socket.sid)
          .ok (applied.1, some c, applied.2)
    else if mtype = MESSAGE_TYPE_AWARENESS then do
      let ctx2 ←
        match ctx with
        | some c => do
          let ids ← readAwarenessClientIds payload
          pure (some { c with awarenessClientIds := c.awarenessClientIds ++ ids })
        | none => pure ctx
      let room2 : Room := { room with awareness := room.awareness ++ [payload] }
      .ok (room2, ctx2, [])
    else
      .ok (room, ctx, [])

/-- The room registry: `rooms` and `pendingRooms` maps from the server
file. Room objects and pending creation futures are named by tokens. -/
structure Registry where
  rooms : List (String × Nat)
  pending : List (String × Nat)
deriving DecidableEq

/-- What a call to `getOrCreateRoom` does synchronously, before any await. -/
inductive AcquireStep where
  | useExisting (roomRef : Nat)
  | awaitPending (futureRef : Nat)
  | startCreation
deriving DecidableEq

/-- The synchronous dispatch of `getOrCreateRoom` from the server file:
return the room in `rooms`, else return the future in `pendingRooms`,
else start a fresh creation. -/
def getOrCreateDispatch (reg : Registry) (roomId : String) : AcquireStep :=
  match assocLookup reg.rooms roomId with
  | some existingRoom => .useExisting existingRoom
  | none =>
    match assocLookup reg.pending roomId with
    | some pendingRoom => .awaitPending pendingRoom
    | none => .startCreation

/-- Installing the pending entry for a fresh creation
(`pendingRooms.set(roomId, creatingRoom)`). -/
def installPending (reg : Registry) (roomId : String) (futureRef : Nat) : Registry :=
  { reg with pending := assocSet reg.pending roomId futureRef }

/-- Completion of the creation body of `getOrCreateRoom`: on a successful
`loadProjectState` the new room is inserted into `rooms` and the
`finally` clause removes the pending entry; on a thrown load error the
`finally` clause still removes the pending entry and the error
propagates to every awaiting caller. -/
def finishCreation (reg : Registry) (roomId : String) (newRoomRef : Nat)
    (loadResult : Except String PermMap) : Registry × Except String Nat :=
  match loadResult with
  | .ok _perms =>
    ({ rooms := assocSet reg.rooms roomId newRoomRef
       pending := assocErase reg.pending roomId }, .ok newRoomRef)
  | .error e =>
    ({ reg with pending := assocErase reg.pending roomId }, .error e)

/-- REST responses of the core endpoints, by status. -/
inductive RestResponse where
  | okPermissions (userId : String) (role : Role)
  | okApprove (suggestionId : String)
  | badRequest
  | unauthorized
  | forbidden
  | notFound
  | unavailable
deriving DecidableEq

/-- The authenticated core of `POST /api/projects/:id/permissions` from
the server file: 403 unless the requester has effective role admin, else
update the room permission map and reply ok. -/
def handlePermissionsPost (room : Room) (requester : AuthTokenPayload)
    (targetUserId : String) (nextRole : Role) : Room × RestResponse :=
  if getEffectiveRole room requester ≠ Role.admin then
    (room, .forbidden)
  else
    ({ room with permissions := assocSet room.permissions targetUserId nextRole },
      .okPermissions targetUserId nextRole)

/-- The characters replaced by `sanitizePathSegment`. -/
def badPathChars : List Char := ['\\', '/', ':', '*', '?', '\"', '<', '>', '|']

/-- `sanitizePathSegment` from `persistence.ts`: replace each of the nine
reserved characters with an underscore, trim, and fall back to
`untitled` when the result is empty. -/
def sanitizePathSegment (segment : String) : String :=
  let cleaned :=
    jsTrim (String.mk (segment.data.map (fun c => if c ∈ badPathChars then '_' else c)))
  if cleaned.length = 0 then "untitled" else cleaned

/-- One value of the `file-tree:nodes` map: the `name` and `parentId`
attributes the walk inspects. -/
structure TreeNode where
  nameAttr : JVal
  parentIdAttr : JVal
deriving DecidableEq

theorem assocLookup_isSome_mem {α : Type} {l : List (String × α)} {k : String} {v : α}
    (h : assocLookup l k = some v) : k ∈ l.map Prod.fst := by
  induction l with
  | nil => simp [assocLookup] at h
  | cons e rest ih =>
    by_cases he : e.fst = k
    · simp [← he]
    · have hne : ¬((fun x : String × α => x.fst == k) e = true) := by simpa using he
      have hfind : List.find? (fun x : String × α => x.fst == k) (e :: rest) =
          List.find? (fun x : String × α => x.fst == k) rest :=
        List.find?_cons_of_neg rest hne
      have h2 : assocLookup rest k = some v := by
        unfold assocLookup at h ⊢
        rw [hfind] at h
        exact h
      exact List.mem_cons_of_mem _ (ih h2)

theorem length_filter_not_mem_cons_lt (keys : List String) (a : String)
    (visited : List String) (ha : a ∈ keys) (hnv : a ∉ visited) :
    (keys.filter (fun k => !decide (k = a) && !decide (k ∈ visited))).length <
      (keys.filter (fun k => !decide (k ∈ visited))).length := by
  induction keys with
  | nil => cases ha
  | cons x xs ih =>
    rw [List.filter_cons, List.filter_cons]
    by_cases hxa : x = a
    · subst hxa
      have h1 : (!decide (x = x) && !decide (x ∈ visited)) = false := by simp
      have h2 : (!decide (x ∈ visited)) = true := by simp [hnv]
      rw [h1, h2]
      simp only [if_neg (by simp : ¬(false = true)), if_pos rfl, List.length_cons]
      have hmono : (xs.filter (fun k => !decide (k = x) && !decide (k ∈ visited))).length ≤
          (xs.filter (fun k => !decide (k ∈ visited))).length := by
        apply List.Sublist.length_le
        apply List.monotone_filter_right
        intro b hb
        exact (Bool.and_elim_right hb)
      exact Nat.lt_succ_of_le hmono
    · have hmem : a ∈ xs := by
        rcases List.mem_cons.mp ha with h | h
        · exact absurd h.symm hxa
        · exact h
      by_cases hx2 : x ∈ visited
      · have h1 : (!decide (x = a) && !decide (x ∈ visited)) = false := by simp [hx2]
        have h2 : (!decide (x ∈ visited)) = false := by simp [hx2]
        rw [h1, h2]
        simp only [if_neg (by simp : ¬(false = true))]
        exact ih hmem
      · have h1 : (!decide (x = a) && !decide (x ∈ visited)) = true := by
          simp [hxa, hx2]
        have h2 : (!decide (x ∈ visited)) = true := by simp [hx2]
        rw [h1, h2]
        simp only [if_pos rfl, List.length_cons]
        exact Nat.succ_lt_succ (ih hmem)

/-- The while loop of `buildFilePathFromTree` from `persistence.ts`.
The source loop header is `while (currentId)`: the empty string is falsy
in JavaScript, so a current id of `""` exits the loop and falls through
to the final length check, exactly like a `break`. Path segments are
accumulated front-first, so the returned list is already ordered root to
leaf (the source pushes to the back and reverses at the end). Returning
`none` models a `return null`. -/
def pathWalk (nodes : List (String × TreeNode)) (currentId : String)
    (visited : List String) (segs : List String) : Option (List String) :=
  if currentId = "" then
    if segs.isEmpty then none else some segs
  else if hvis : currentId ∈ visited then none
  else
    match hn : assocLookup nodes currentId with
    | none => if segs.isEmpty then none else some segs
    | some node =>
      match node.nameAttr with
      | .str nodeName =>
        let segs2 := sanitizePathSegment nodeName :: segs
        match node.parentIdAttr with
        | .str parent => pathWalk nodes parent (currentId :: visited) segs2
        | .nullv => some segs2
        | _ => none
      | _ => none
termination_by ((nodes.map Prod.fst).filter (fun k => decide (k ∉ visited))).length
decreasing_by
  simp_wf
  exact length_filter_not_mem_cons_lt (nodes.map Prod.fst) currentId visited
    (assocLookup_isSome_mem hn) hvis


/-- `buildFilePathFromTree` from `persistence.ts`. -/
def buildFilePathFromTree (fileId : String) (treeNodes : List (String × TreeNode)) :
    Option String :=
  match pathWalk treeNodes fileId [] [] with
  | none => none
  | some segs => if segs.isEmpty then none else some (String.intercalate "/" segs)

/-- One step of the parent walk: defined (`some parent`) exactly when the
walk would reach the next loop iteration, that is when the current id is
truthy (non-empty) and unexited, the node exists, its name is a string,
and its parentId is a truthy (non-empty) string; a parentId of `""`
makes the `while (currentId)` condition falsy and terminates the walk,
so it is not a continuing step. -/
def parentStep (nodes : List (String × TreeNode)) (currentId : String) : Option String :=
  if currentId = "" then none
  else
    match assocLookup nodes currentId with
    | none => none
    | some node =>
      match node.nameAttr, node.parentIdAttr with
      | .str _, .str parent => if parent = "" then none else some parent
      | _, _ => none

/-- The id reached after `n` continuing steps of the parent walk. -/
def parentChain (nodes : List (String × TreeNode)) (start : String) : Nat → Option String
  | 0 => some start
  | n + 1 =>
    match parentStep nodes start with
    | none => none
    | some p => parentChain nodes p n

/-- One row written by the file pass of `persistProjectState`. -/
structure FileRow where
  rowId : String
  path : String
  content : String
deriving DecidableEq

/-- The file pass of `persistProjectState` from `persistence.ts`: one row
per entry of `editor:files`, whose path is the derived tree path or the
`files/<sanitized id>.txt` fallback. -/
def persistFileRows (yFiles : List (String × String))
    (treeNodes : List (String × TreeNode)) : List FileRow :=
  yFiles.map (fun e =>
    let treePath := buildFilePathFromTree e.fst treeNodes
    let fallbackName := sanitizePathSegment e.fst ++ ".txt"
    { rowId := e.fst
      path := treePath.getD ("files/" ++ fallbackName)
      content := e.snd })

/-- `isRole` from `persistence.ts`, on a dynamic value. -/
def roleFromJVal : JVal → Option Role
  | .str "viewer" => some .viewer
  | .str "editor" => some .editor
  | .str "admin" => some .admin
  | _ => none

/-- The permission-entry filter of `loadProjectState`: keep entries whose
value passes `isRole`. -/
def parsePermissionEntries (raw : List (String × JVal)) : PermMap :=
  raw.filterMap (fun e => (roleFromJVal e.snd).map (fun r => (e.fst, r)))

/-- A suggestion record in the external store. -/
structure StoredSuggestion where
  sid : String
  projectId : String
  fileId : String
  creatorId : String
  text : String
  votes : List (String × Int)
deriving DecidableEq

/-- The results of the awaited store operations of `loadProjectState`, in
program order. Each models one mongoose call that either returns or
throws. -/
structure StoreReads where
  upsertProject : Except String Unit
  projectRecord : Except String (Option (List (String × JVal)))
  fileRecords : Except String (List FileRow)
  suggestionRecords : Except String (List StoredSuggestion)

/-- `loadProjectState` from `persistence.ts`: no connection yields an
empty permission map; otherwise the four store operations run in order
with no surrounding try/catch, so a thrown store error propagates to the
caller. The doc rebuild is a pure local transaction on the Yjs doc (no
store access) and is not part of the returned value. -/
def loadProjectState (connected : Bool) (store : StoreReads) : Except String PermMap :=
  if connected = false then .ok []
  else do
    let _ ← store.upsertProject
    let projectRecord ← store.projectRecord
    let _files ← store.fileRecords
    let _suggestions ← store.suggestionRecords
    let permissionEntries :=
      match projectRecord with
      | some raw => parsePermissionEntries raw
      | none => []
    pure permissionEntries

/-- The `votes` attribute of a suggestion entry: either a shared `Y.Map`
(`instanceof Y.Map` holds) or some other value. -/
inductive VotesAttr where
  | ymap (entries : List (String × JVal))
  | notMap (v : JVal)
deriving DecidableEq

/-- One value of the `editor:suggestions` map, restricted to the
attributes the persist pass reads. -/
structure YSuggestion where
  fileId : JVal
  authorId : JVal
  text : JVal
  votes : VotesAttr
  authorName : JVal
deriving DecidableEq

/-- One row written by the suggestion pass of `persistProjectState`. -/
structure SuggestionRow where
  rowId : String
  fileId : String
  creatorId : String
  text : String
  votes : List (String × Int)
  authorName : String
deriving DecidableEq

/-- The per-entry validation of the suggestion pass of
`persistProjectState`: entries whose `fileId`, `authorId` or `text` is
not a string, or whose `votes` is not a `Y.Map`, yield no row
(`continue` in the source). -/
def suggestionRowOf (suggestionId : String) (raw : YSuggestion) : Option SuggestionRow :=
  match raw.fileId, raw.authorId, raw.text, raw.votes with
  | .str fid, .str creatorId, .str txt, .ymap voteEntries =>
    some
      { rowId := suggestionId
        fileId := fid
        creatorId := creatorId
        text := txt
        votes := voteEntries.filterMap (fun e =>
          match e.snd with
          | .num n => some (e.fst, n)
          | _ => none)
        authorName :=
          match raw.authorName with
          | .str authorName => authorName
          | _ => creatorId }
  | _, _, _, _ => none

/-- The rows collected by the suggestion pass of `persistProjectState`. -/
def persistSuggestionRows (ySuggestions : List (String × YSuggestion)) :
    List SuggestionRow :=
  ySuggestions.filterMap (fun e => suggestionRowOf e.fst e.snd)

/-- One `updateOne ... upsert` of the suggestion bulk write. -/
def upsertSuggestionRow (store : List StoredSuggestion) (projectId : String)
    (row : SuggestionRow) : List StoredSuggestion :=
  if store.any (fun sr => sr.sid == row.rowId) then
    store.map (fun sr =>
      if sr.sid == row.rowId then
        { sr with
            projectId := projectId
            fileId := row.fileId
            creatorId := row.creatorId
            text := row.text
            votes := row.votes }
      else sr)
  else
    store ++ [{ sid := row.rowId
                projectId := projectId
                fileId := row.fileId
                creatorId := row.creatorId
                text := row.text
                votes := row.votes }]

/-- The suggestion pass of `persistProjectState` on the store: bulk
upsert of the valid rows followed by the tombstone `deleteMany` that
removes every record of the project whose id is absent from the rows. -/
def persistSuggestionsToStore (projectId : String) (store : List StoredSuggestion)
    (ySuggestions : List (String × YSuggestion)) : List StoredSuggestion :=
  let rows := persistSuggestionRows ySuggestions
  let afterUpserts := rows.foldl (fun st row => upsertSuggestionRow st projectId row) store
  afterUpserts.filter (fun sr =>
    !(sr.projectId == projectId && !(rows.any (fun row => row.rowId == sr.sid))))

theorem assocLookup_mapSet_ne {α : Type} (l : List (String × α)) (k k2 : String) (v : α)
    (h : k2 ≠ k) :
    assocLookup (l.map (fun e => if e.fst == k then (k, v) else e)) k2 =
      assocLookup l k2 := by
  induction l with
  | nil => rfl
  | cons e rest ih =>
    simp only [List.map_cons]
    by_cases hek : (e.fst == k) = true
    · have hfk : e.fst = k := by simpa using hek
      have hh1 : (((k, v) : String × α).fst == k2) = false := by
        simp [Ne.symm h]
      have hh2 : (e.fst == k2) = false := by
        simp [hfk, Ne.symm h]
      unfold assocLookup
      rw [if_pos hek]
      simp only [List.find?_cons, hh1, hh2]
      exact ih
    · rw [if_neg hek]
      unfold assocLookup
      simp only [List.find?_cons]
      cases he2 : (e.fst == k2)
      · simp only [he2]
        exact ih
      · simp only [he2]

theorem assocLookup_assocSet_ne {α : Type} (l : List (String × α)) (k k2 : String) (v : α)
    (h : k2 ≠ k) : assocLookup (assocSet l k v) k2 = assocLookup l k2 := by
  unfold assocSet
  split
  · exact assocLookup_mapSet_ne l k k2 v h
  · unfold assocLookup
    rw [List.find?_append]
    have hkk : (k == k2) = false := by simp [Ne.symm h]
    have h1 : List.find? (fun e : String × α => e.fst == k2) [(k, v)] = none := by
      simp [List.find?_cons, hkk]
    rw [h1]
    cases l.find? (fun e : String × α => e.fst == k2) <;> rfl

/-- Claim C1: a socket whose effective role ranks below editor sending a
SYNC frame leaves the room (and in particular its CRDT doc) unchanged,
receives exactly one error text frame with message
`insufficient permissions for editing`, and triggers no broadcast. -/
theorem syncFromBelowEditorIsDropped (room : Room) (c : SocketContext) (socket : Socket)
    (payload : List Nat)
    (h : getRoleRank (getEffectiveRole room c.user) < getRoleRank Role.editor) :
    handleBinaryFrame room (some c) socket (MESSAGE_TYPE_SYNC :: payload) =
      .ok (room, some c,
        [.sendText socket.sid (.errorFrame "insufficient permissions for editing")]) := by
  simp [handleBinaryFrame, parseMessage, h]

/-- Sample data used by concrete witnesses below. -/
def sampleViewer : AuthTokenPayload :=
  { userId := "u-viewer", username := "alice", role := .viewer }

def sampleEditor : AuthTokenPayload :=
  { userId := "u-editor", username := "bob", role := .editor }

def sampleAdmin : AuthTokenPayload :=
  { userId := "u-admin", username := "carol", role := .admin }

def sampleSocket : Socket := { sid := 1, readyStateOpen := true }

def sampleRoom : Room :=
  { doc := { updates := [] }
    awareness := []
    sockets := [{ sid := 1, readyStateOpen := true }, { sid := 2, readyStateOpen := true }]
    persistTimer := false
    persistInFlight := false
    persistRequested := false
    permissions := [] }

def sampleViewerCtx : SocketContext :=
  { roomId := "collab-room", awarenessClientIds := [], user := sampleViewer }

theorem syncFromBelowEditorIsDropped_witness :
    getRoleRank (getEffectiveRole sampleRoom sampleViewerCtx.user) < getRoleRank Role.editor ∧
    handleBinaryFrame sampleRoom (some sampleViewerCtx) sampleSocket
        (MESSAGE_TYPE_SYNC :: [7, 7]) =
      .ok (sampleRoom, some sampleViewerCtx,
        [.sendText sampleSocket.sid (.errorFrame "insufficient permissions for editing")]) :=
  ⟨by decide,
    syncFromBelowEditorIsDropped sampleRoom sampleViewerCtx sampleSocket [7, 7] (by decide)⟩

/-- Claim C2: the effective role equals the room permission entry for the
user id when present and the token role otherwise, both before and after
a permissions POST performed by an admin; and that POST does set the
requested entry. -/
theorem effectiveRoleEquation (room : Room) (u requester : AuthTokenPayload)
    (targetUserId : String) (nextRole : Role)
    (hAdmin : getEffectiveRole room requester = Role.admin) :
    (∀ r, assocLookup room.permissions u.userId = some r → getEffectiveRole room u = r) ∧
    (assocLookup room.permissions u.userId = none → getEffectiveRole room u = u.role) ∧
    (∀ r, assocLookup
        (handlePermissionsPost room requester targetUserId nextRole).1.permissions
        u.userId = some r →
      getEffectiveRole (handlePermissionsPost room requester targetUserId nextRole).1 u = r) ∧
    (assocLookup
        (handlePermissionsPost room requester targetUserId nextRole).1.permissions
        u.userId = none →
      getEffectiveRole (handlePermissionsPost room requester targetUserId nextRole).1 u =
        u.role) ∧
    assocLookup
        (handlePermissionsPost room requester targetUserId nextRole).1.permissions
        targetUserId = some nextRole := by
  refine ⟨?_, ?_, ?_, ?_, ?_⟩
  · intro r hr
    simp [getEffectiveRole, hr]
  · intro hr
    simp [getEffectiveRole, hr]
  · intro r hr
    simp [getEffectiveRole, hr]
  · intro hr
    simp [getEffectiveRole, hr]
  · simp [handlePermissionsPost, hAdmin]
    exact assocLookup_assocSet_self room.permissions targetUserId nextRole

theorem effectiveRoleEquation_witness :
    getEffectiveRole sampleRoom sampleAdmin = Role.admin ∧
    getEffectiveRole sampleRoom sampleViewer = sampleViewer.role ∧
    assocLookup
      (handlePermissionsPost sampleRoom sampleAdmin "u-viewer" Role.editor).1.permissions
      "u-viewer" = some Role.editor := by
  refine ⟨by decide, ?_, ?_⟩
  · exact (effectiveRoleEquation sampleRoom sampleViewer sampleAdmin "u-viewer" Role.editor
      (by decide)).2.1 (by decide)
  · exact (effectiveRoleEquation sampleRoom sampleViewer sampleAdmin "u-viewer" Role.editor
      (by decide)).2.2.2.2

/-- Claim C6 counterexample: a connection with a valid token and no
`room` query parameter is not closed with 1008; the server falls back to
room id `default` and proceeds. -/
theorem missingRoomParamProceeds_counterexample :
    acceptConnection false true (some "jwt") none (fun _ => some sampleEditor) =
      AcceptResult.proceed "default" sampleEditor := by decide

/-- Claim C6 (amended): a missing `token` query parameter is rejected
with close code 1008, but a missing `room` parameter is not: the room id
falls back to `default` and the accept sequence proceeds. -/
theorem missingRoomParamProceeds (verify : String → Option AuthTokenPayload)
    (t : String) (u : AuthTokenPayload) (hv : verify t = some u) :
    acceptConnection false true none none verify = .close 1008 "missing token" ∧
    acceptConnection false true (some t) none verify = .proceed "default" u := by
  have hValid : isValidRoomId "default" = true := by decide
  constructor
  · rfl
  · simp [acceptConnection, hv, hValid]

theorem missingRoomParamProceeds_witness :
    acceptConnection false true none none (fun _ => some sampleEditor) =
      .close 1008 "missing token" ∧
    acceptConnection false true (some "jwt") none (fun _ => some sampleEditor) =
      .proceed "default" sampleEditor :=
  missingRoomParamProceeds (fun _ => some sampleEditor) "jwt" sampleEditor rfl

/-- Claim C7 counterexample: when the store connection is up and the
first store operation of `loadProjectState` throws, the error is not
swallowed and no empty permission map is returned; the error propagates
to the caller. -/
def failingStoreReads : StoreReads :=
  { upsertProject := .error "store down"
    projectRecord := .ok none
    fileRecords := .ok []
    suggestionRecords := .ok [] }

theorem loadProjectStateErrorPropagates_counterexample :
    loadProjectState true failingStoreReads = .error "store down" := by rfl

/-- Claim C7 (amended): `loadProjectState` returns an empty permission
map only when no store connection is available; when connected, a
failure of any of the four store operations propagates to the caller
(there is no try/catch around them). -/
theorem loadProjectStateErrorPropagates (store : StoreReads) (e : String) :
    (loadProjectState false store = .ok []) ∧
    (store.upsertProject = .error e → loadProjectState true store = .error e) ∧
    (store.upsertProject = .ok () → store.projectRecord = .error e →
      loadProjectState true store = .error e) ∧
    (∀ rec0, store.upsertProject = .ok () → store.projectRecord = .ok rec0 →
      store.fileRecords = .error e → loadProjectState true store = .error e) ∧
    (∀ rec0 files, store.upsertProject = .ok () → store.projectRecord = .ok rec0 →
      store.fileRecords = .ok files → store.suggestionRecords = .error e →
      loadProjectState true store = .error e) := by
  refine ⟨rfl, ?_, ?_, ?_, ?_⟩
  · intro h
    simp [loadProjectState, h, Bind.bind, Except.bind]
  · intro h1 h2
    simp [loadProjectState, h1, h2, Bind.bind, Except.bind]
  · intro rec0 h1 h2 h3
    simp [loadProjectState, h1, h2, h3, Bind.bind, Except.bind]
  · intro rec0 files h1 h2 h3 h4
    simp [loadProjectState, h1, h2, h3, h4, Bind.bind, Except.bind]

theorem loadProjectStateErrorPropagates_witness :
    loadProjectState false failingStoreReads = .ok [] ∧
    loadProjectState true failingStoreReads = .error "store down" :=
  ⟨(loadProjectStateErrorPropagates failingStoreReads "store down").1,
    (loadProjectStateErrorPropagates failingStoreReads "store down").2.1 rfl⟩

/-- Claim C3: `getOrCreateRoom` returns the existing room when one is in
the map, returns the single pending future when one is in flight,
otherwise starts a creation that installs a pending entry; the creation
body inserts exactly one room into the map and removes the pending entry
both on success and on a thrown load error, which propagates. -/
theorem getOrCreateRoomSerialized (reg : Registry) (roomId : String)
    (newRoomRef futureRef : Nat) (perms : PermMap) (e : String) :
    (∀ r, assocLookup reg.rooms roomId = some r →
      getOrCreateDispatch reg roomId = .useExisting r) ∧
    (assocLookup reg.rooms roomId = none → ∀ p, assocLookup reg.pending roomId = some p →
      getOrCreateDispatch reg roomId = .awaitPending p) ∧
    (assocLookup reg.rooms roomId = none → assocLookup reg.pending roomId = none →
      getOrCreateDispatch reg roomId = .startCreation ∧
      assocLookup (installPending reg roomId futureRef).pending roomId = some futureRef) ∧
    (assocLookup (finishCreation reg roomId newRoomRef (.ok perms)).1.rooms roomId =
        some newRoomRef ∧
      (∀ k, k ≠ roomId →
        assocLookup (finishCreation reg roomId newRoomRef (.ok perms)).1.rooms k =
          assocLookup reg.rooms k) ∧
      assocLookup (finishCreation reg roomId newRoomRef (.ok perms)).1.pending roomId =
        none ∧
      (finishCreation reg roomId newRoomRef (.ok perms)).2 = .ok newRoomRef) ∧
    ((finishCreation reg roomId newRoomRef (.error e)).1.rooms = reg.rooms ∧
      assocLookup (finishCreation reg roomId newRoomRef (.error e)).1.pending roomId =
        none ∧
      (finishCreation reg roomId newRoomRef (.error e)).2 = .error e) := by
  refine ⟨?_, ?_, ?_, ⟨?_, ?_, ?_, rfl⟩, ⟨rfl, ?_, rfl⟩⟩
  · intro r hr
    simp [getOrCreateDispatch, hr]
  · intro hr p hp
    simp [getOrCreateDispatch, hr, hp]
  · intro hr hp
    refine ⟨by simp [getOrCreateDispatch, hr, hp], ?_⟩
    simp only [installPending]
    exact assocLookup_assocSet_self reg.pending roomId futureRef
  · exact assocLookup_assocSet_self reg.rooms roomId newRoomRef
  · intro k hk
    exact assocLookup_assocSet_ne reg.rooms roomId k newRoomRef hk
  · exact assocLookup_assocErase_self reg.pending roomId
  · exact assocLookup_assocErase_self reg.pending roomId

def sampleRegistry : Registry :=
  { rooms := [("other-room", 10)], pending := [("pending-room", 20)] }

theorem getOrCreateRoomSerialized_witness :
    getOrCreateDispatch sampleRegistry "pending-room" = .awaitPending 20 ∧
    assocLookup (finishCreation sampleRegistry "pending-room" 30
        (.error "load failed")).1.pending "pending-room" = none ∧
    (finishCreation sampleRegistry "pending-room" 30 (.error "load failed")).2 =
      .error "load failed" := by
  refine ⟨?_, ?_, ?_⟩
  · exact (getOrCreateRoomSerialized sampleRegistry "pending-room" 30 99 [] "load failed").2.1 (by decide) 20 (by decide)
  · exact (getOrCreateRoomSerialized sampleRegistry "pending-room" 30 99 [] "load failed").2.2.2.2.2.1
  · exact (getOrCreateRoomSerialized sampleRegistry "pending-room" 30 99 [] "load failed").2.2.2.2.2.2

/-- Claim C4: per room at most one persist call is in flight:
`flushProjectPersist` returns immediately with only the requested flag
re-set whenever a persist is in flight, and a run that does call
`persistProjectState` starts with the in-flight flag clear, sets it
before the call, performs no second call, and clears it only after the
call settles. -/
theorem flushPersistSingleFlight (room : Room) (failed schedDuring : Bool) :
    (room.persistInFlight = true →
      flushProjectPersist room failed schedDuring =
        ({ room with persistRequested := true }, [.setRequested true])) ∧
    (FlushEvent.callPersist ∈ (flushProjectPersist room failed schedDuring).2 →
      room.persistInFlight = false ∧ room.persistRequested = true ∧
      (flushProjectPersist room failed schedDuring).1.persistInFlight = false ∧
      ∃ post,
        (flushProjectPersist room failed schedDuring).2 =
          [FlushEvent.setInFlight true, FlushEvent.setRequested false,
            FlushEvent.callPersist] ++ post ∧
        FlushEvent.callPersist ∉ post ∧
        FlushEvent.setInFlight false ∈ post) := by
  constructor
  · intro h
    simp [flushProjectPersist, h]
  · intro hmem
    by_cases hif : room.persistInFlight = true
    · simp [flushProjectPersist, hif] at hmem
    · have hif2 : room.persistInFlight = false := by simpa using hif
      by_cases hreq : room.persistRequested = true
      · refine ⟨hif2, hreq, ?_, ?_⟩
        · simp only [flushProjectPersist, hif2, hreq]
          cases failed <;> cases schedDuring <;> cases ht : room.persistTimer <;>
            simp [ht]
        · simp only [flushProjectPersist, hif2, hreq]
          cases failed <;> cases schedDuring <;> cases ht : room.persistTimer <;>
            simp [ht] <;>
            first
            | exact ⟨[FlushEvent.setInFlight false], by simp, by simp, by simp⟩
            | exact ⟨[FlushEvent.setRequested true, FlushEvent.setInFlight false],
                by simp, by simp, by simp⟩
            | exact ⟨[FlushEvent.setRequested true, FlushEvent.setInFlight false,
                FlushEvent.armTimer 600], by simp, by simp, by simp⟩
      · have hreq2 : room.persistRequested = false := by simpa using hreq
        simp [flushProjectPersist, hif2, hreq2] at hmem

def sampleDirtyRoom : Room :=
  { sampleRoom with persistRequested := true }

theorem flushPersistSingleFlight_witness :
    FlushEvent.callPersist ∈ (flushProjectPersist sampleDirtyRoom true false).2 ∧
    sampleDirtyRoom.persistInFlight = false ∧
    (flushProjectPersist sampleDirtyRoom true false).1.persistInFlight = false :=
  have h := (flushPersistSingleFlight sampleDirtyRoom true false).2 (by decide)
  ⟨by decide, h.1, h.2.2.1⟩

/-- Claim C5: a parsed chat message with non-empty trimmed text is
broadcast, built from the authenticated identity of the sender, to every
open socket of the room including the sender; any chat frame the parser
rejects produces no output at all. -/
theorem chatBroadcastIncludesSender (room : Room) (c : SocketContext) (socket : Socket)
    (s uuid now : String) (hs : (jsTrim s).length ≠ 0) :
    (handleTextFrame room (some c) socket (.jsonObj (.str "chat") (.str s)) uuid now =
      broadcastText room (.chat uuid c.user.userId c.user.username (jsTrim s) now) none) ∧
    (∀ cl ∈ room.sockets, cl.readyStateOpen = true →
      OutEvent.sendText cl.sid (.chat uuid c.user.userId c.user.username (jsTrim s) now) ∈
        handleTextFrame room (some c) socket (.jsonObj (.str "chat") (.str s)) uuid now) ∧
    (∀ tf xf, parseIncomingChatMessage (.jsonObj tf xf) = none →
      handleTextFrame room (some c) socket (.jsonObj tf xf) uuid now = []) := by
  have hparse : parseIncomingChatMessage (.jsonObj (.str "chat") (.str s)) = some (jsTrim s) := by
    simp [parseIncomingChatMessage, hs]
  have heq : handleTextFrame room (some c) socket (.jsonObj (.str "chat") (.str s)) uuid now =
      broadcastText room (.chat uuid c.user.userId c.user.username (jsTrim s) now) none := by
    simp [handleTextFrame, hparse]
  refine ⟨heq, ?_, ?_⟩
  · intro cl hcl hopen
    rw [heq]
    unfold broadcastText
    apply List.mem_filterMap.mpr
    exact ⟨cl, hcl, by simp [hopen]⟩
  · intro tf xf h
    simp [handleTextFrame, h]

theorem chatBroadcastIncludesSender_witness :
    (jsTrim " hi there ").length ≠ 0 ∧
    OutEvent.sendText 1
        (.chat "uuid-1" sampleEditor.userId sampleEditor.username
          (jsTrim " hi there ") "2026-01-01") ∈
      handleTextFrame sampleRoom
        (some { roomId := "chat-room", awarenessClientIds := [], user := sampleEditor })
        sampleSocket (.jsonObj (.str "chat") (.str " hi there ")) "uuid-1" "2026-01-01" ∧
    handleTextFrame sampleRoom
        (some { roomId := "chat-room", awarenessClientIds := [], user := sampleEditor })
        sampleSocket (.jsonObj (.str "chat") (.str "   ")) "uuid-1" "2026-01-01" = [] := by
  refine ⟨by decide, ?_, ?_⟩
  · exact (chatBroadcastIncludesSender sampleRoom
      { roomId := "chat-room", awarenessClientIds := [], user := sampleEditor }
      sampleSocket " hi there " "uuid-1" "2026-01-01" (by decide)).2.1
      sampleSocket (by decide) (by decide)
  · exact (chatBroadcastIncludesSender sampleRoom
      { roomId := "chat-room", awarenessClientIds := [], user := sampleEditor }
      sampleSocket " hi there " "uuid-1" "2026-01-01" (by decide)).2.2
      (.str "chat") (.str "   ") (by decide)

/-- Claim C9 counterexample: a malformed AWARENESS payload (client count
1 but a truncated body) makes the repository decoder
`readAwarenessClientIds` throw, and the message handler installs no
try/catch, so the exception escapes instead of the frame being silently
dropped. -/
theorem malformedAwarenessEscapes_counterexample :
    handleBinaryFrame sampleRoom (some sampleViewerCtx) sampleSocket
        [MESSAGE_TYPE_AWARENESS, 1] = .error "unexpected end of array" := by rfl

/-- Claim C9 (amended): binary frames with no bytes are silently dropped
and unknown frame types are ignored, but a malformed AWARENESS payload
received on a socket with a context makes the decoding exception
propagate out of the message handler. -/
theorem malformedAwarenessEscapes (room : Room) (ctx : Option SocketContext)
    (socket : Socket) (mtype : Nat) (payload : List Nat) (c : SocketContext) (e : String) :
    (handleBinaryFrame room ctx socket [] = .ok (room, ctx, [])) ∧
    (mtype ≠ MESSAGE_TYPE_SYNC → mtype ≠ MESSAGE_TYPE_AWARENESS →
      handleBinaryFrame room ctx socket (mtype :: payload) = .ok (room, ctx, [])) ∧
    (readAwarenessClientIds payload = .error e →
      handleBinaryFrame room (some c) socket (MESSAGE_TYPE_AWARENESS :: payload) =
        .error e) := by
  refine ⟨rfl, ?_, ?_⟩
  · intro h1 h2
    simp [handleBinaryFrame, parseMessage, h1, h2]
  · intro h
    simp [handleBinaryFrame, parseMessage, MESSAGE_TYPE_SYNC, MESSAGE_TYPE_AWARENESS,
      h, Bind.bind, Except.bind]

theorem malformedAwarenessEscapes_witness :
    handleBinaryFrame sampleRoom (some sampleViewerCtx) sampleSocket [9, 1, 2, 3] =
      .ok (sampleRoom, some sampleViewerCtx, []) ∧
    readAwarenessClientIds [1] = .error "unexpected end of array" ∧
    handleBinaryFrame sampleRoom (some sampleViewerCtx) sampleSocket
        [MESSAGE_TYPE_AWARENESS, 1] = .error "unexpected end of array" := by
  refine ⟨?_, by rfl, ?_⟩
  · exact (malformedAwarenessEscapes sampleRoom (some sampleViewerCtx) sampleSocket 9
      [1, 2, 3] sampleViewerCtx "x").2.1 (by decide) (by decide)
  · exact (malformedAwarenessEscapes sampleRoom (some sampleViewerCtx) sampleSocket 9
      [1] sampleViewerCtx "unexpected end of array").2.2 (by rfl)

theorem pathWalk_visited (nodes : List (String × TreeNode)) (currentId : String)
    (visited segs : List String) (hne : currentId ≠ "") (h : currentId ∈ visited) :
    pathWalk nodes currentId visited segs = none := by
  rw [pathWalk]
  rw [if_neg hne]
  simp [h]

theorem pathWalk_step (nodes : List (String × TreeNode)) (currentId : String)
    (visited segs : List String) (node : TreeNode) (nodeName parent : String)
    (hne : currentId ≠ "")
    (hnv : currentId ∉ visited)
    (hn : assocLookup nodes currentId = some node)
    (hname : node.nameAttr = .str nodeName)
    (hparent : node.parentIdAttr = .str parent) :
    pathWalk nodes currentId visited segs =
      pathWalk nodes parent (currentId :: visited)
        (sanitizePathSegment nodeName :: segs) := by
  rw [pathWalk]
  rw [if_neg hne]
  rw [dif_neg hnv]
  split
  · rename_i h1
    rw [h1] at hn
    cases hn
  · rename_i node2 h1
    rw [h1] at hn
    injection hn with hn2
    subst hn2
    rw [hname, hparent]

theorem parentStep_some_elim (nodes : List (String × TreeNode)) (c p : String)
    (h : parentStep nodes c = some p) :
    c ≠ "" ∧ p ≠ "" ∧ ∃ node nodeName, assocLookup nodes c = some node ∧
      node.nameAttr = .str nodeName ∧ node.parentIdAttr = .str p := by
  unfold parentStep at h
  by_cases hc : c = ""
  · rw [if_pos hc] at h
    cases h
  · rw [if_neg hc] at h
    cases hn : assocLookup nodes c with
    | none => rw [hn] at h; cases h
    | some node =>
      rw [hn] at h
      cases hna : node.nameAttr <;> cases hpa : node.parentIdAttr <;>
        simp only [hna, hpa] at h <;> try cases h
      rename_i nodeName parent
      by_cases hp : parent = ""
      · rw [if_pos hp] at h
        cases h
      · rw [if_neg hp] at h
        injection h with h2
        subst h2
        exact ⟨hc, hp, node, nodeName, hn ▸ rfl, hna, hpa⟩

theorem parentChain_succ (nodes : List (String × TreeNode)) (c : String) (n : Nat) :
    parentChain nodes c (n + 1) =
      match parentStep nodes c with
      | none => none
      | some p => parentChain nodes p n := rfl

/-- If the parent walk, run from `currentId` with every id in `visited`
truthy, either reaches an id that is already in `visited` or repeats an
id of its own chain, then the walk loop returns `none`. -/
theorem pathWalk_none_of_hit (nodes : List (String × TreeNode)) :
    ∀ bound currentId visited segs,
      (∀ x ∈ visited, x ≠ "") →
      ((∃ m, m ≤ bound ∧ ∃ d, parentChain nodes currentId m = some d ∧ d ∈ visited) ∨
        (∃ i j, i < j ∧ j ≤ bound ∧
          parentChain nodes currentId i = parentChain nodes currentId j ∧
          (parentChain nodes currentId j).isSome = true)) →
      pathWalk nodes currentId visited segs = none := by
  intro bound
  induction bound with
  | zero =>
    intro c visited segs hvtruthy h
    rcases h with ⟨m, hm, d, hchain, hd⟩ | ⟨i, j, hij, hj, _, _⟩
    · have hm0 : m = 0 := Nat.le_zero.mp hm
      subst hm0
      have h0 : parentChain nodes c 0 = some c := rfl
      rw [h0] at hchain
      have hdc : c = d := Option.some_inj.mp hchain
      exact pathWalk_visited nodes c visited segs
        (hvtruthy c (hdc ▸ hd)) (hdc ▸ hd)
    · exact absurd (Nat.lt_of_lt_of_le hij hj) (Nat.not_lt_zero i)
  | succ b ih =>
    intro c visited segs hvtruthy h
    by_cases hv : c ∈ visited
    · exact pathWalk_visited nodes c visited segs (hvtruthy c hv) hv
    · rcases h with ⟨m, hm, d, hchain, hd⟩ | ⟨i, j, hij, hj, heq, hsome⟩
      · cases m with
        | zero =>
          have h0 : parentChain nodes c 0 = some c := rfl
          rw [h0] at hchain
          have hdc : c = d := Option.some_inj.mp hchain
          exact absurd (hdc ▸ hd) hv
        | succ m2 =>
          rw [parentChain_succ] at hchain
          cases hstep : parentStep nodes c with
          | none => rw [hstep] at hchain; cases hchain
          | some p =>
            rw [hstep] at hchain
            obtain ⟨hcne, hpne, node, nodeName, hn, hname, hparent⟩ :=
              parentStep_some_elim nodes c p hstep
            rw [pathWalk_step nodes c visited segs node nodeName p hcne hv hn hname
              hparent]
            have hvtruthy2 : ∀ x ∈ c :: visited, x ≠ "" := by
              intro x hx
              rcases List.mem_cons.mp hx with hx1 | hx2
              · rw [hx1]; exact hcne
              · exact hvtruthy x hx2
            exact ih _ _ _ hvtruthy2
              (Or.inl ⟨m2, by omega, d, hchain, List.mem_cons_of_mem _ hd⟩)
      · obtain ⟨j2, rfl⟩ : ∃ j2, j = j2 + 1 := ⟨j - 1, by omega⟩
        obtain ⟨p, hp⟩ : ∃ p, parentStep nodes c = some p := by
          cases hs : parentStep nodes c with
          | none =>
            rw [parentChain_succ, hs] at hsome
            simp at hsome
          | some p => exact ⟨p, rfl⟩
        have hchainsucc : ∀ n, parentChain nodes c (n + 1) = parentChain nodes p n := by
          intro n
          rw [parentChain_succ, hp]
        obtain ⟨hcne, hpne, node, nodeName, hn, hname, hparent⟩ :=
          parentStep_some_elim nodes c p hp
        rw [pathWalk_step nodes c visited segs node nodeName p hcne hv hn hname hparent]
        have hvtruthy2 : ∀ x ∈ c :: visited, x ≠ "" := by
          intro x hx
          rcases List.mem_cons.mp hx with hx1 | hx2
          · rw [hx1]; exact hcne
          · exact hvtruthy x hx2
        cases i with
        | zero =>
          apply ih _ _ _ hvtruthy2
          left
          refine ⟨j2, by omega, c, ?_, List.mem_cons_self c visited⟩
          have h0 : parentChain nodes c 0 = some c := rfl
          calc parentChain nodes p j2 = parentChain nodes c (j2 + 1) :=
                (hchainsucc j2).symm
            _ = parentChain nodes c 0 := heq.symm
            _ = some c := h0
        | succ i2 =>
          apply ih _ _ _ hvtruthy2
          right
          refine ⟨i2, j2, by omega, by omega, ?_, ?_⟩
          · rw [hchainsucc i2, hchainsucc j2] at heq
            exact heq
          · rw [← hchainsucc j2]
            exact hsome

/-- Claim C8: when the parent walk from a file id revisits an id (a
cycle), `buildFilePathFromTree` returns no path, and the file pass of
`persistProjectState` persists that file under the fallback path
`files/<sanitized fileId>.txt`. -/
theorem cyclicTreeFallsBack (fileId : String) (nodes : List (String × TreeNode))
    (yFiles : List (String × String)) (content : String)
    (hcycle : ∃ i j, i < j ∧ parentChain nodes fileId i = parentChain nodes fileId j ∧
      (parentChain nodes fileId j).isSome = true)
    (hfile : (fileId, content) ∈ yFiles) :
    buildFilePathFromTree fileId nodes = none ∧
    ({ rowId := fileId
       path := "files/" ++ (sanitizePathSegment fileId ++ ".txt")
       content := content } : FileRow) ∈ persistFileRows yFiles nodes := by
  have hwalk : pathWalk nodes fileId [] [] = none := by
    obtain ⟨i, j, hij, heq, hsome⟩ := hcycle
    exact pathWalk_none_of_hit nodes j fileId [] []
      (fun x hx => absurd hx (List.not_mem_nil x))
      (Or.inr ⟨i, j, hij, Nat.le_refl j, heq, hsome⟩)
  have hbuild : buildFilePathFromTree fileId nodes = none := by
    simp [buildFilePathFromTree, hwalk]
  refine ⟨hbuild, ?_⟩
  unfold persistFileRows
  apply List.mem_map.mpr
  exact ⟨(fileId, content), hfile, by simp [hbuild]⟩

/-- A two-node cyclic file tree, used as the concrete cycle witness. -/
def cycNodes : List (String × TreeNode) :=
  [("a", { nameAttr := .str "x", parentIdAttr := .str "b" }),
   ("b", { nameAttr := .str "y", parentIdAttr := .str "a" })]

theorem cyclicTreeFallsBack_witness :
    (parentChain cycNodes "a" 0 = parentChain cycNodes "a" 2 ∧
      (parentChain cycNodes "a" 2).isSome = true) ∧
    buildFilePathFromTree "a" cycNodes = none ∧
    ({ rowId := "a"
       path := "files/" ++ (sanitizePathSegment "a" ++ ".txt")
       content := "hello" } : FileRow) ∈ persistFileRows [("a", "hello")] cycNodes := by
  have hcyc : ∃ i j, i < j ∧ parentChain cycNodes "a" i = parentChain cycNodes "a" j ∧
      (parentChain cycNodes "a" j).isSome = true :=
    ⟨0, 2, by decide, by decide, by decide⟩
  have h := cyclicTreeFallsBack "a" cycNodes [("a", "hello")] "hello" hcyc
    (List.mem_singleton.mpr rfl)
  exact ⟨⟨by decide, by decide⟩, h.1, h.2⟩

theorem suggestionRowOf_some_id (sid : String) (raw : YSuggestion) (row : SuggestionRow)
    (h : suggestionRowOf sid raw = some row) : row.rowId = sid := by
  unfold suggestionRowOf at h
  split at h
  · injection h with h2
    subst h2
    rfl
  · cases h

theorem assocLookup_unique {α : Type} {l : List (String × α)} {k : String} {v v2 : α}
    (hnd : (l.map Prod.fst).Nodup) (hmem : (k, v2) ∈ l)
    (h : assocLookup l k = some v) : v2 = v := by
  induction l with
  | nil => cases hmem
  | cons e rest ih =>
    rcases List.mem_cons.mp hmem with hhead | hmem2
    · rw [← hhead] at h
      simp [assocLookup, List.find?_cons] at h
      exact h
    · by_cases he : e.fst = k
      · exfalso
        have hk : k ∈ rest.map Prod.fst := by
          have := List.mem_map_of_mem Prod.fst hmem2
          simpa using this
        exact (List.nodup_cons.mp hnd).1 (he ▸ hk)
      · have heb : (e.fst == k) = false := by simp [he]
        simp only [assocLookup, List.find?_cons, heb] at h
        exact ih (List.nodup_cons.mp hnd).2 hmem2 h

/-- Claim C10: a suggestion entry of the doc lacking a string `fileId`,
a string `authorId` or a string `text`, or whose `votes` is not a shared
map, is treated as absent by `persistProjectState`: no row is written
for it, and any store record with that id for the project is removed by
the tombstone delete pass. -/
theorem invalidSuggestionTombstoned (projectId sid : String)
    (ySuggestions : List (String × YSuggestion)) (raw : YSuggestion)
    (store : List StoredSuggestion)
    (hlookup : assocLookup ySuggestions sid = some raw)
    (hinvalid : suggestionRowOf sid raw = none)
    (hnodup : (ySuggestions.map Prod.fst).Nodup) :
    (∀ row ∈ persistSuggestionRows ySuggestions, row.rowId ≠ sid) ∧
    (∀ sr ∈ persistSuggestionsToStore projectId store ySuggestions,
      ¬(sr.projectId = projectId ∧ sr.sid = sid)) := by
  have hrows : ∀ row ∈ persistSuggestionRows ySuggestions, row.rowId ≠ sid := by
    intro row hrow hid
    unfold persistSuggestionRows at hrow
    obtain ⟨e, he, hsome⟩ := List.mem_filterMap.mp hrow
    have hid2 : row.rowId = e.fst := suggestionRowOf_some_id e.fst e.snd row hsome
    have hefst : e.fst = sid := by rw [← hid2, hid]
    have hpair : (sid, e.snd) = e := by rw [← hefst]
    have hmem : (sid, e.snd) ∈ ySuggestions := by rw [hpair]; exact he
    have hraw : e.snd = raw := assocLookup_unique hnodup hmem hlookup
    rw [hefst, hraw, hinvalid] at hsome
    cases hsome
  refine ⟨hrows, ?_⟩
  intro sr hsr hconj
  obtain ⟨hproj, hsid⟩ := hconj
  simp only [persistSuggestionsToStore] at hsr
  rw [List.mem_filter] at hsr
  obtain ⟨-, hpred⟩ := hsr
  have hany : (persistSuggestionRows ySuggestions).any
      (fun row => row.rowId == sr.sid) = false := by
    rw [List.any_eq_false]
    intro row hrow
    intro hbeq
    exact hrows row hrow (by rw [← hsid]; simpa using hbeq)
  rw [hproj] at hpred
  simp [hany] at hpred

def sampleInvalidRaw : YSuggestion :=
  { fileId := .str "f1"
    authorId := .nullv
    text := .str "needs a refactor"
    votes := .ymap []
    authorName := .undef }

def sampleInvalidSuggestions : List (String × YSuggestion) :=
  [("s1", sampleInvalidRaw)]

def sampleStoredSuggestion : StoredSuggestion :=
  { sid := "s1"
    projectId := "p1"
    fileId := "f1"
    creatorId := "u-old"
    text := "stale"
    votes := [] }

theorem invalidSuggestionTombstoned_witness :
    sampleStoredSuggestion ∉
      persistSuggestionsToStore "p1" [sampleStoredSuggestion] sampleInvalidSuggestions := by
  intro hmem
  exact (invalidSuggestionTombstoned "p1" "s1" sampleInvalidSuggestions sampleInvalidRaw
    [sampleStoredSuggestion] (by decide) (by decide) (by decide)).2
    sampleStoredSuggestion hmem ⟨rfl, rfl⟩

end Codesafe
